import Mathlib

/-!
Shallow embedding of the Sudoku simulated-annealing solver
(`sudoku.py` and `sudoku_solver.py`).

The 9x9 grid is embedded as a total function `Fin 9 → Fin 9 → Nat`
(cell values; 0 means blank), and the fixed-cell mask as
`Fin 9 → Fin 9 → Bool`.  Python lists of groups become Lean `List`s;
`collections.Counter` iteration over distinct values becomes iteration
over `List.dedup`.  The solver's floating-point temperature, decay and
random draws are idealised as real numbers; the random source
(`random.choices`, `random.choice`, `random.random`) is threaded
explicitly as oracle functions, and the two `while True` loops of
`select_coordinates` receive explicit fuel, returning `none` on
divergence.  `set.pop()` order in `initialise_board` (arbitrary in the
source) is modelled as ascending order; `KeyError` from popping an
empty set is modelled as `none`.
-/

/-- A (row, column) coordinate on the 9x9 board. -/
abbrev Coord := Fin 9 × Fin 9

/-- `get_box_coordinates` from `sudoku.py`: the list of coordinate lists of the
nine 3x3 boxes, box origins iterated row-major over (0,3,6)x(0,3,6), cells
within a box row-major. -/
def get_box_coordinates : List (List Coord) :=
  (List.finRange 3).flatMap (fun i =>
    (List.finRange 3).map (fun j =>
      (List.finRange 3).flatMap (fun m =>
        (List.finRange 3).map (fun n =>
          ((⟨3 * i.val + m.val, by have := i.isLt; have := m.isLt; omega⟩ : Fin 9),
           (⟨3 * j.val + n.val, by have := j.isLt; have := n.isLt; omega⟩ : Fin 9))))))

/-- The `Board` class of `sudoku.py`: a 9x9 grid of values and the parallel
fixed-cell mask. -/
structure Board where
  grid : Fin 9 → Fin 9 → Nat
  fixed_cells : Fin 9 → Fin 9 → Bool

/-- `Board.__init__`: construct a board from an initial grid; the fixed mask is
computed as `bool(cell)`, i.e. cell value nonzero. -/
def Board.ofGrid (g : Fin 9 → Fin 9 → Nat) : Board :=
  { grid := g, fixed_cells := fun r c => g r c != 0 }

/-- `Board.get_value`. -/
def Board.get_value (b : Board) (row col : Fin 9) : Nat :=
  b.grid row col

/-- `Board.set_value`: write the value only when the cell is not fixed. -/
def Board.set_value (b : Board) (row col : Fin 9) (value : Nat) : Board :=
  if b.fixed_cells row col then b
  else { b with grid := fun r c => if r = row ∧ c = col then value else b.grid r c }

/-- `Board.get_rows`: the nine row groups. -/
def Board.get_rows (b : Board) : List (List Nat) :=
  (List.finRange 9).map (fun r => (List.finRange 9).map (fun c => b.grid r c))

/-- `Board.get_columns`: the nine column groups (transpose of the rows). -/
def Board.get_columns (b : Board) : List (List Nat) :=
  (List.finRange 9).map (fun c => (List.finRange 9).map (fun r => b.grid r c))

/-- `Board.get_boxes`: the nine box groups, read off `get_box_coordinates`. -/
def Board.get_boxes (b : Board) : List (List Nat) :=
  get_box_coordinates.map (fun box => box.map (fun p => b.grid p.1 p.2))

/-- The nested `is_valid_group` of `Board.is_valid`: the nonzero elements of
the group are pairwise distinct (`len(elements) == len(set(elements))`). -/
def is_valid_group (group : List Nat) : Bool :=
  (group.filter (fun n => n != 0)).length == (group.filter (fun n => n != 0)).dedup.length

/-- `Board.is_valid`: every one of the 27 groups has no duplicate nonzero
value. -/
def Board.is_valid (b : Board) : Bool :=
  (b.get_rows ++ b.get_columns ++ b.get_boxes).all is_valid_group

/-- `Board.copy_board`: a copy constructed from the grid alone, so the fixed
mask is recomputed from the copied grid's nonzero-ness. -/
def Board.copy_board (b : Board) : Board :=
  Board.ofGrid b.grid

/-- `Board.is_cell_fixed`. -/
def Board.is_cell_fixed (b : Board) (row col : Fin 9) : Bool :=
  b.fixed_cells row col

/-- `Board.get_modifiable_coordinates`: all non-fixed coordinates in row-major
order. -/
def Board.get_modifiable_coordinates (b : Board) : List Coord :=
  (List.finRange 9).flatMap (fun r =>
    ((List.finRange 9).filter (fun c => !(b.fixed_cells r c))).map (fun c => (r, c)))

/-- `Board.reset`: set every modifiable cell to 0. -/
def Board.reset (b : Board) : Board :=
  { b with grid := fun r c => if b.fixed_cells r c then b.grid r c else 0 }

/-- The nested `group_cost` of `cost_function` in `sudoku_solver.py`: over the
distinct values of the group (`Counter`), a zero value contributes its full
count, a nonzero value its count minus one. -/
def group_cost (group : List Nat) : Nat :=
  (group.dedup.map (fun num =>
    if num = 0 then group.count num else group.count num - 1)).sum

/-- `cost_function`: total of `group_cost` over rows, columns and boxes. -/
def cost_function (b : Board) : Nat :=
  (b.get_rows.map group_cost).sum + (b.get_columns.map group_cost).sum
    + (b.get_boxes.map group_cost).sum

/-- `coordinate_cost`: flat cost 1 for a blank cell; otherwise the number of
other occurrences of the cell's value in its row, column and box. -/
def coordinate_cost (b : Board) (row col : Fin 9) : Nat :=
  let value := b.get_value row col
  if value = 0 then 1
  else
    let row_group := (List.finRange 9).map (fun c => b.grid row c)
    let col_group := (List.finRange 9).map (fun r => b.grid r col)
    let box_group :=
      ((get_box_coordinates.find? (fun box => decide ((row, col) ∈ box))).getD []).map
        (fun p => b.get_value p.1 p.2)
    (row_group.count value - 1) + (col_group.count value - 1)
      + (box_group.count value - 1)

/-- The column scan of one row in `initialise_board`: walk the columns in
order; on a blank cell pop the next missing number (a pop from an empty pool
is Python's `KeyError`, modelled as `none`) and `set_value` it. -/
def init_row_go (r : Fin 9) : Board → List Nat → List (Fin 9) → Option Board
  | b, _, [] => some b
  | b, missing, c :: cs =>
    if b.get_value r c = 0 then
      match missing with
      | [] => none
      | m :: ms => init_row_go r (b.set_value r c m) ms cs
    else init_row_go r b missing cs

/-- One row of `initialise_board`: compute the missing digits of the row
(`set(range(1,10)) - set(row_values)`, pop order modelled as ascending) and
fill them into the row's blank cells. -/
def init_row (b : Board) (r : Fin 9) : Option Board :=
  let row_values := (List.finRange 9).map (fun c => b.grid r c)
  let missing_numbers := (List.range' 1 9).filter (fun n => decide (n ∉ row_values))
  init_row_go r b missing_numbers (List.finRange 9)

/-- `initialise_board`: fill every row with its missing digits, row by row. -/
def initialise_board (b : Board) : Option Board :=
  (List.finRange 9).foldlM init_row b

/-- `swap_values`: read both values, then `set_value` each across. -/
def swap_values (b : Board) (coord1 coord2 : Coord) : Board :=
  let val1 := b.get_value coord1.1 coord1.2
  let val2 := b.get_value coord2.1 coord2.2
  (b.set_value coord1.1 coord1.2 val2).set_value coord2.1 coord2.2 val1

/-- The same-row candidate list built in `select_coordinates`: coordinates
`(row1, col)` for the columns distinct from `col1` such that `(row1, col)` is
a key of `coord_costs`. -/
def row_coords (coords : List Coord) (coord1 : Coord) : List Coord :=
  ((List.finRange 9).filter
      (fun col => decide (col ≠ coord1.2 ∧ (coord1.1, col) ∈ coords))).map
    (fun col => (coord1.1, col))

/-- The inner `while True` of `select_coordinates` (the live "Algorithm 2"
fallback): keep drawing `coord2` from all of `coords` until its value differs
from `coord1`'s; draws are supplied by `stream`, with explicit fuel
(`none` models divergence). -/
def algorithm2_loop (b : Board) (coord1 : Coord) (stream : Nat → Coord) :
    Nat → Nat → Option (Coord × Coord)
  | 0, _ => none
  | fuel + 1, k =>
    let coord2 := stream k
    if b.get_value coord2.1 coord2.2 ≠ b.get_value coord1.1 coord1.2 then
      some (coord1, coord2)
    else algorithm2_loop b coord1 stream fuel (k + 1)

/-- The body of `select_coordinates` for one drawn `coord1` (every path of the
outer `while True` body returns, so the outer loop never re-iterates):
if the same-row candidate list is nonempty, `coord2` is a uniform draw from it
(`pick_row`); otherwise control falls through to the live "Algorithm 2" inner
loop drawing from all of `coords` via `stream`. -/
def select_coordinates (fuel : Nat) (coords : List Coord) (b : Board)
    (coord1 : Coord) (pick_row : List Coord → Coord) (stream : Nat → Coord) :
    Option (Coord × Coord) :=
  let rc := row_coords coords coord1
  if rc ≠ [] then some (coord1, pick_row rc)
  else algorithm2_loop b coord1 stream fuel 0

/-- The swap/evaluate/accept-or-revert section of one `solver` loop
iteration: swap, recompute the cost, accept when `delta_cost < 0` or the
uniform draw `u` is below `exp(-delta_cost / T)`, otherwise swap back and keep
the old cost.  The floating-point `math.exp` and `random.random()` are
idealised over the reals, which makes this definition classically defined
rather than evaluable; the branch test is the only non-evaluable part. -/
noncomputable def solver_iteration (b : Board) (current_cost : Nat) (T : ℝ)
    (coord1 coord2 : Coord) (u : ℝ) : Board × Nat :=
  let b' := swap_values b coord1 coord2
  let new_cost := cost_function b'
  let delta_cost : ℤ := (new_cost : ℤ) - (current_cost : ℤ)
  if delta_cost < 0 ∨ u < Real.exp (-(delta_cost : ℝ) / T) then (b', new_cost)
  else (swap_values b' coord1 coord2, current_cost)

/-- The random source of `solver` and `select_coordinates`, threaded
explicitly and indexed by the iteration counter: `pick_weighted i` is the
result of the weighted `random.choices` draw at iteration `i`, `pick_row i`
the uniform `random.choice` over the same-row candidates, `stream i k` the
`k`-th draw of the inner Algorithm-2 loop, `inner_fuel` its fuel, and
`accept i` the uniform `random.random()` draw of the acceptance test. -/
structure Oracle where
  pick_weighted : Nat → Coord
  pick_row : Nat → List Coord → Coord
  stream : Nat → Nat → Coord
  inner_fuel : Nat
  accept : Nat → ℝ

/-- The mutable state of the `solver` loop. -/
structure SState where
  board : Board
  T : ℝ
  current_cost : Nat
  min_cost : Nat
  stagnation_counter : Nat
  iterations : Nat

/-- The coordinate-pair selection of one `solver` loop pass: build
`coord_costs` over the modifiable coordinates (an association list, standing
for the insertion-ordered dict) and call `select_coordinates` on its keys. -/
def loop_select (O : Oracle) (modifiable_coords : List Coord) (s : SState) :
    Option (Coord × Coord) :=
  let coord_costs :=
    modifiable_coords.map (fun c => (c, coordinate_cost s.board c.1 c.2))
  select_coordinates O.inner_fuel (coord_costs.map Prod.fst) s.board
    (O.pick_weighted s.iterations) (O.pick_row s.iterations)
    (O.stream s.iterations)

/-- The state update of one `solver` loop pass after the pair is selected:
swap/accept/revert (`solver_iteration`), stagnation tracking, reheat or
cool, and the iteration increment. -/
noncomputable def solver_step (O : Oracle) (T_initial : ℝ) (max_stagnation : Nat)
    (decay : ℝ) (coord1 coord2 : Coord) (s : SState) : SState :=
  let p := solver_iteration s.board s.current_cost s.T coord1 coord2
    (O.accept s.iterations)
  let current_cost := p.2
  let min_cost := if current_cost < s.min_cost then current_cost else s.min_cost
  let stagnation :=
    if current_cost < s.min_cost then 0 else s.stagnation_counter + 1
  if stagnation ≥ max_stagnation then
    ⟨p.1, T_initial, current_cost, current_cost, 0, s.iterations + 1⟩
  else
    ⟨p.1, s.T * decay, current_cost, min_cost, stagnation, s.iterations + 1⟩

/-- The `while current_cost > 0 and iterations < max_iterations` loop of
`solver`, structurally recursing on the remaining iteration budget
(`fuel = max_iterations - iterations`).  `none` models divergence of
`select_coordinates`. -/
noncomputable def solver_loop (O : Oracle) (T_initial : ℝ) (max_stagnation : Nat)
    (decay : ℝ) (modifiable_coords : List Coord) : Nat → SState → Option SState
  | 0, s => some s
  | fuel + 1, s =>
    if s.current_cost = 0 then some s
    else
      match loop_select O modifiable_coords s with
      | none => none
      | some (coord1, coord2) =>
        solver_loop O T_initial max_stagnation decay modifiable_coords fuel
          (solver_step O T_initial max_stagnation decay coord1 coord2 s)

/-- `solver` up to its return value: initialise the board, set up the state
(`T`, `current_cost = min_cost = cost_function(board)`, counters 0,
`modifiable_coords` computed once), and run the loop with budget
`max_iterations`.  `none` models a `KeyError` in `initialise_board` or
divergence of `select_coordinates`. -/
noncomputable def solver_run (O : Oracle) (b : Board) (T : ℝ)
    (max_iterations max_stagnation : Nat) (decay : ℝ) : Option SState :=
  match initialise_board b with
  | none => none
  | some b0 =>
    let current_cost := cost_function b0
    let modifiable_coords := b0.get_modifiable_coordinates
    solver_loop O T max_stagnation decay modifiable_coords max_iterations
      ⟨b0, T, current_cost, current_cost, 0, 0⟩

/-- `solver`: the returned boolean `current_cost == 0`. -/
noncomputable def solver (O : Oracle) (b : Board) (T : ℝ)
    (max_iterations max_stagnation : Nat) (decay : ℝ) : Option Bool :=
  (solver_run O b T max_iterations max_stagnation decay).map
    (fun s => s.current_cost == 0)

/-- Proof device: the effect of `init_row_go` on the row seen as a list —
replace the zeros of `xs`, left to right, by successive elements of `ms`
(`none` when `ms` runs out, as `set.pop` on an empty set). -/
def fill_list : List Nat → List Nat → Option (List Nat)
  | [], _ => some []
  | 0 :: _, [] => none
  | 0 :: xs, m :: ms' => (fill_list xs ms').map (fun ys => m :: ys)
  | (n + 1) :: xs, ms => (fill_list xs ms).map (fun ys => (n + 1) :: ys)

/-- The per-row hypotheses under which one row of `initialise_board`
succeeds: no duplicate nonzero entry, digit-range entries, and every blank
cell modifiable. -/
def RowHyp (b : Board) (r : Fin 9) : Prop :=
  (((List.finRange 9).map (b.grid r)).filter (fun x => x != 0)).Nodup ∧
  (∀ c, b.grid r c ≤ 9) ∧ (∀ c, b.grid r c = 0 → b.fixed_cells r c = false)

/-- `b'` preserves `b`'s fixed mask and the grid values at fixed cells. -/
def FixedPreserved (b b' : Board) : Prop :=
  b'.fixed_cells = b.fixed_cells ∧
  ∀ r c, b.fixed_cells r c = true → b'.grid r c = b.grid r c

/-- The board-mutating operations of the repository, for stating that fixed
cells survive any sequence of them. -/
inductive BoardOp where
  | set (row col : Fin 9) (value : Nat)
  | swap (coord1 coord2 : Coord)
  | reset
  | initialise

/-- Run one `BoardOp` (`none` models a `KeyError` in `initialise_board`). -/
def apply_op (b : Board) : BoardOp → Option Board
  | .set row col v => some (b.set_value row col v)
  | .swap c1 c2 => some (swap_values b c1 c2)
  | .reset => some b.reset
  | .initialise => initialise_board b

/-- Run a sequence of `BoardOp`s. -/
def apply_ops (b : Board) (ops : List BoardOp) : Option Board :=
  ops.foldlM apply_op b

/-- A complete, valid Sudoku solution (the standard cyclic pattern). -/
def demo_solution : Fin 9 → Fin 9 → Nat :=
  fun r c => (3 * r.val + r.val / 3 + c.val) % 9 + 1

/-- `demo_solution` with the (0,0) cell blanked. -/
def demo_one_blank : Fin 9 → Fin 9 → Nat :=
  fun r c => if r = 0 ∧ c = 0 then 0 else demo_solution r c

/-- The all-blank grid. -/
def demo_empty : Fin 9 → Fin 9 → Nat := fun _ _ => 0

/-- A grid with a single clue at (0,0). -/
def demo_single : Fin 9 → Fin 9 → Nat :=
  fun r c => if r = 0 ∧ c = 0 then 1 else 0

/-- A board with a fixed 1 at (0,0) and a modifiable cell (0,1) currently
holding the nonzero value 2. -/
def demo_mixed : Board := (Board.ofGrid demo_single).set_value 0 1 2

/-- `demo_solution` with the cells (0,0) and (1,0) blanked. -/
def demo_two_blanks : Fin 9 → Fin 9 → Nat :=
  fun r c => if (r = 0 ∧ c = 0) ∨ (r = 1 ∧ c = 0) then 0 else demo_solution r c

/-- The board obtained by initialising the two-blank puzzle; its two
modifiable cells (0,0) and (1,0) sit in different rows and hold the
distinct values 1 and 4. -/
def demo_b3 : Board :=
  (initialise_board (Board.ofGrid demo_two_blanks)).getD (Board.ofGrid demo_two_blanks)

/-- A concrete random source: constant draws, unit inner fuel, zero
acceptance draw. -/
def demo_oracle : Oracle :=
  { pick_weighted := fun _ => ((0 : Fin 9), (0 : Fin 9)),
    pick_row := fun _ l => l.headD ((0 : Fin 9), (0 : Fin 9)),
    stream := fun _ _ => ((0 : Fin 9), (0 : Fin 9)),
    inner_fuel := 1,
    accept := fun _ => 0 }

/-! ### Helper lemmas: the cost model -/

lemma nat_sum_eq_zero_iff (l : List Nat) : l.sum = 0 ↔ ∀ x ∈ l, x = 0 := by
  induction l with
  | nil => simp
  | cons a l ih => simp [Nat.add_eq_zero, ih]

lemma group_cost_eq_zero_iff (g : List Nat) :
    group_cost g = 0 ↔ 0 ∉ g ∧ g.Nodup := by
  unfold group_cost
  rw [nat_sum_eq_zero_iff, List.forall_mem_map]
  constructor
  · intro h
    have h0 : 0 ∉ g := by
      intro hmem
      have h1 := h 0 (List.mem_dedup.2 hmem)
      rw [if_pos rfl] at h1
      have := List.count_pos_iff.2 hmem
      omega
    refine ⟨h0, List.nodup_iff_count_le_one.mpr fun a => ?_⟩
    by_cases hmem : a ∈ g
    · have h1 := h a (List.mem_dedup.2 hmem)
      have hne : a ≠ 0 := fun e => h0 (e ▸ hmem)
      rw [if_neg hne] at h1
      omega
    · rw [List.count_eq_zero.2 hmem]; omega
  · rintro ⟨h0, hnd⟩ v hv
    have hvg : v ∈ g := List.mem_dedup.1 hv
    have hne : v ≠ 0 := fun e => h0 (e ▸ hvg)
    rw [if_neg hne]
    have := List.nodup_iff_count_le_one.mp hnd v
    omega

lemma is_valid_group_iff (g : List Nat) :
    is_valid_group g = true ↔ (g.filter (fun n => n != 0)).Nodup := by
  unfold is_valid_group
  rw [beq_iff_eq]
  constructor
  · intro h
    have hsub := List.dedup_sublist (g.filter (fun n => n != 0))
    have := hsub.eq_of_length h.symm
    exact List.dedup_eq_self.1 this
  · intro h
    rw [List.dedup_eq_self.2 h]

lemma group_cost_eq_zero_of_perm_range (g : List Nat)
    (h : g.Perm (List.range' 1 9)) : group_cost g = 0 := by
  rw [group_cost_eq_zero_iff]
  constructor
  · intro h0
    have := h.mem_iff.1 h0
    simp [List.mem_range'_1] at this
  · exact h.nodup_iff.2 (List.nodup_range' (s := 1) (n := 9))

lemma dedup_sum_pair_le (g : List Nat) (f : Nat → Nat) (a b : Nat)
    (ha : a ∈ g) (hb : b ∈ g) (hab : a ≠ b) :
    f a + f b ≤ (g.dedup.map f).sum := by
  have ha' : a ∈ g.dedup := List.mem_dedup.2 ha
  have hb' : b ∈ g.dedup := List.mem_dedup.2 hb
  have hperm : g.dedup.Perm (a :: g.dedup.erase a) := List.perm_cons_erase ha'
  have hb'' : b ∈ g.dedup.erase a :=
    (List.mem_erase_of_ne (Ne.symm hab)).2 hb'
  have hfb : f b ≤ ((g.dedup.erase a).map f).sum :=
    List.le_sum_of_mem (List.mem_map_of_mem f hb'')
  calc f a + f b ≤ f a + ((g.dedup.erase a).map f).sum := by omega
    _ = ((a :: g.dedup.erase a).map f).sum := by simp
    _ = (g.dedup.map f).sum := ((hperm.map f).sum_eq).symm

lemma mem_groups_grid (b : Board) (g : List Nat)
    (hg : g ∈ b.get_rows ++ b.get_columns ++ b.get_boxes) (x : Nat) (hx : x ∈ g) :
    ∃ r c, x = b.grid r c := by
  simp only [List.mem_append] at hg
  rcases hg with (hg | hg) | hg
  · obtain ⟨r, _, rfl⟩ := List.mem_map.1 hg
    obtain ⟨c, _, rfl⟩ := List.mem_map.1 hx
    exact ⟨r, c, rfl⟩
  · obtain ⟨c, _, rfl⟩ := List.mem_map.1 hg
    obtain ⟨r, _, rfl⟩ := List.mem_map.1 hx
    exact ⟨r, c, rfl⟩
  · obtain ⟨box, _, rfl⟩ := List.mem_map.1 hg
    obtain ⟨p, _, rfl⟩ := List.mem_map.1 hx
    exact ⟨p.1, p.2, rfl⟩

lemma grid_mem_row (b : Board) (r c : Fin 9) :
    b.grid r c ∈ (List.finRange 9).map (fun c' => b.grid r c') :=
  List.mem_map_of_mem _ (List.mem_finRange c)

lemma row_mem_get_rows (b : Board) (r : Fin 9) :
    ((List.finRange 9).map (fun c' => b.grid r c')) ∈ b.get_rows :=
  List.mem_map_of_mem _ (List.mem_finRange r)

lemma cost_function_eq_zero_iff (b : Board) :
    cost_function b = 0 ↔ (b.is_valid = true ∧ ∀ r c, b.grid r c ≠ 0) := by
  have hcost : cost_function b = 0 ↔
      ∀ g ∈ b.get_rows ++ b.get_columns ++ b.get_boxes, group_cost g = 0 := by
    unfold cost_function
    rw [Nat.add_eq_zero, Nat.add_eq_zero, nat_sum_eq_zero_iff, nat_sum_eq_zero_iff,
      nat_sum_eq_zero_iff]
    simp only [List.forall_mem_map, List.mem_append, or_imp, forall_and]
  rw [hcost]
  constructor
  · intro hall
    constructor
    · unfold Board.is_valid
      rw [List.all_eq_true]
      intro g hg
      rw [is_valid_group_iff]
      exact ((group_cost_eq_zero_iff g).1 (hall g hg)).2.filter _
    · intro r c hzero
      have hg := hall _ (by
        rw [List.mem_append, List.mem_append]
        exact Or.inl (Or.inl (row_mem_get_rows b r)))
      exact ((group_cost_eq_zero_iff _).1 hg).1 (hzero ▸ grid_mem_row b r c)
  · rintro ⟨hvalid, hnz⟩ g hg
    rw [group_cost_eq_zero_iff]
    have hmem : ∀ x ∈ g, x ≠ 0 := fun x hx => by
      obtain ⟨r, c, rfl⟩ := mem_groups_grid b g hg x hx
      exact hnz r c
    refine ⟨fun h0 => hmem 0 h0 rfl, ?_⟩
    have hv := (List.all_eq_true.1 hvalid) g hg
    rw [is_valid_group_iff] at hv
    have hfe : g.filter (fun n => n != 0) = g :=
      List.filter_eq_self.2 (fun x hx => by simpa using hmem x hx)
    rwa [hfe] at hv

/-! ### Helper lemmas: writes, swaps and the fixed mask -/

lemma set_value_fixed_cells (b : Board) (row col : Fin 9) (v : Nat) :
    (b.set_value row col v).fixed_cells = b.fixed_cells := by
  unfold Board.set_value
  split <;> rfl

lemma set_value_grid (b : Board) (row col : Fin 9) (v : Nat) (r c : Fin 9) :
    (b.set_value row col v).grid r c =
      if b.fixed_cells row col = false ∧ r = row ∧ c = col then v
      else b.grid r c := by
  unfold Board.set_value
  by_cases hf : b.fixed_cells row col <;> simp [hf]

lemma set_value_fixed_grid_preserved (b : Board) (row col : Fin 9) (v : Nat)
    (r c : Fin 9) (h : b.fixed_cells r c = true) :
    (b.set_value row col v).grid r c = b.grid r c := by
  rw [set_value_grid]
  by_cases e : r = row ∧ c = col
  · rcases e with ⟨rfl, rfl⟩
    simp [h]
  · simp [e]

lemma swap_values_fixed_cells (b : Board) (c1 c2 : Coord) :
    (swap_values b c1 c2).fixed_cells = b.fixed_cells := by
  unfold swap_values
  rw [set_value_fixed_cells, set_value_fixed_cells]

lemma swap_values_fixed_grid_preserved (b : Board) (c1 c2 : Coord)
    (r c : Fin 9) (h : b.fixed_cells r c = true) :
    (swap_values b c1 c2).grid r c = b.grid r c := by
  unfold swap_values
  rw [set_value_fixed_grid_preserved _ _ _ _ _ _ (by rwa [set_value_fixed_cells]),
    set_value_fixed_grid_preserved _ _ _ _ _ _ h]

lemma swap_values_grid_frame (b : Board) (c1 c2 : Coord) (r c : Fin 9)
    (h1 : ¬(r = c1.1 ∧ c = c1.2)) (h2 : ¬(r = c2.1 ∧ c = c2.2)) :
    (swap_values b c1 c2).grid r c = b.grid r c := by
  unfold swap_values
  rw [set_value_grid, if_neg (by tauto), set_value_grid, if_neg (by tauto)]

lemma swap_values_grid_first (b : Board) (c1 c2 : Coord)
    (h1 : b.fixed_cells c1.1 c1.2 = false) (hne : c1 ≠ c2) :
    (swap_values b c1 c2).grid c1.1 c1.2 = b.grid c2.1 c2.2 := by
  unfold swap_values
  have hne' : ¬(c1.1 = c2.1 ∧ c1.2 = c2.2) := by
    intro e
    exact hne (Prod.ext e.1 e.2)
  rw [set_value_grid, if_neg (by tauto), set_value_grid,
    if_pos ⟨h1, rfl, rfl⟩]
  rfl

lemma swap_values_grid_second (b : Board) (c1 c2 : Coord)
    (h2 : b.fixed_cells c2.1 c2.2 = false) :
    (swap_values b c1 c2).grid c2.1 c2.2 = b.grid c1.1 c1.2 := by
  unfold swap_values
  rw [set_value_grid, if_pos ⟨by rwa [set_value_fixed_cells], rfl, rfl⟩]
  rfl

lemma swap_swap_grid (b : Board) (c1 c2 : Coord)
    (h1 : b.fixed_cells c1.1 c1.2 = false) (h2 : b.fixed_cells c2.1 c2.2 = false) :
    (swap_values (swap_values b c1 c2) c1 c2).grid = b.grid := by
  funext r c
  by_cases hc : c1 = c2
  · subst hc
    by_cases e : r = c1.1 ∧ c = c1.2
    · rcases e with ⟨rfl, rfl⟩
      rw [swap_values_grid_second _ _ _ (by rwa [swap_values_fixed_cells]),
        swap_values_grid_second _ _ _ h2]
    · rw [swap_values_grid_frame _ _ _ _ _ e e, swap_values_grid_frame _ _ _ _ _ e e]
  · by_cases e1 : r = c1.1 ∧ c = c1.2
    · rcases e1 with ⟨rfl, rfl⟩
      rw [swap_values_grid_first _ _ _ (by rwa [swap_values_fixed_cells]) hc,
        swap_values_grid_second _ _ _ h2]
    · by_cases e2 : r = c2.1 ∧ c = c2.2
      · rcases e2 with ⟨rfl, rfl⟩
        rw [swap_values_grid_second _ _ _ (by rwa [swap_values_fixed_cells]),
          swap_values_grid_first _ _ _ h1 hc]
      · rw [swap_values_grid_frame _ _ _ _ _ e1 e2,
          swap_values_grid_frame _ _ _ _ _ e1 e2]

/-! ### Helper lemmas: coordinate selection -/

lemma mem_get_modifiable_iff (b : Board) (p : Coord) :
    p ∈ b.get_modifiable_coordinates ↔ b.fixed_cells p.1 p.2 = false := by
  unfold Board.get_modifiable_coordinates
  simp only [List.mem_flatMap, List.mem_map, List.mem_filter, List.mem_finRange,
    true_and, Bool.not_eq_true']
  constructor
  · rintro ⟨r, c, hc, rfl⟩
    exact hc
  · intro h
    exact ⟨p.1, p.2, h, rfl⟩

lemma row_coords_mem (coords : List Coord) (coord1 p : Coord)
    (hp : p ∈ row_coords coords coord1) :
    p ∈ coords ∧ p.1 = coord1.1 ∧ p.2 ≠ coord1.2 := by
  unfold row_coords at hp
  obtain ⟨col, hcol, rfl⟩ := List.mem_map.1 hp
  rw [List.mem_filter] at hcol
  have h := of_decide_eq_true hcol.2
  exact ⟨h.2, rfl, h.1⟩

lemma algorithm2_loop_spec (b : Board) (coord1 : Coord) (stream : Nat → Coord) :
    ∀ fuel k p, algorithm2_loop b coord1 stream fuel k = some p →
      p.1 = coord1 ∧ (∃ j, p.2 = stream j) ∧
      b.get_value p.2.1 p.2.2 ≠ b.get_value coord1.1 coord1.2 := by
  intro fuel
  induction fuel with
  | zero => intro k p h; simp [algorithm2_loop] at h
  | succ n ih =>
    intro k p h
    unfold algorithm2_loop at h
    dsimp only at h
    split at h
    · rcases Option.some.inj h with rfl
      exact ⟨rfl, ⟨k, rfl⟩, by assumption⟩
    · exact ih (k + 1) p h

lemma select_coordinates_mem (fuel : Nat) (coords : List Coord) (b : Board)
    (coord1 : Coord) (pick_row : List Coord → Coord) (stream : Nat → Coord)
    (p : Coord × Coord)
    (hdraw : coord1 ∈ coords)
    (hrow : ∀ l, l ≠ [] → pick_row l ∈ l)
    (hstream : ∀ k, stream k ∈ coords)
    (hsel : select_coordinates fuel coords b coord1 pick_row stream = some p) :
    p.1 ∈ coords ∧ p.2 ∈ coords := by
  unfold select_coordinates at hsel
  dsimp only at hsel
  split at hsel
  · rcases Option.some.inj hsel with rfl
    have hmem := hrow _ (by assumption)
    exact ⟨hdraw, (row_coords_mem coords coord1 _ hmem).1⟩
  · obtain ⟨hp1, ⟨j, hj⟩, _⟩ := algorithm2_loop_spec b coord1 stream fuel 0 p hsel
    rw [hp1, hj]
    exact ⟨hdraw, hstream j⟩

/-! ### Helper lemmas: row initialisation -/

lemma fill_list_isSome (xs : List Nat) :
    ∀ ms : List Nat, xs.count 0 ≤ ms.length → ∃ ys, fill_list xs ms = some ys := by
  induction xs with
  | nil => intro ms _; exact ⟨[], rfl⟩
  | cons x xs ih =>
    intro ms hms
    match x with
    | 0 =>
      rw [List.count_cons_self] at hms
      match ms with
      | m :: ms' =>
        obtain ⟨ys, hys⟩ := ih ms' (by simpa using hms)
        exact ⟨m :: ys, by simp [fill_list, hys]⟩
    | n + 1 =>
      rw [List.count_cons_of_ne (by omega)] at hms
      obtain ⟨ys, hys⟩ := ih ms hms
      exact ⟨(n + 1) :: ys, by simp [fill_list, hys]⟩

lemma fill_list_perm (xs : List Nat) :
    ∀ ms ys : List Nat, fill_list xs ms = some ys →
      ys.Perm (xs.filter (fun x => x != 0) ++ ms.take (xs.count 0)) := by
  induction xs with
  | nil =>
    intro ms ys h
    rcases Option.some.inj h.symm with rfl
    simp
  | cons x xs ih =>
    intro ms ys h
    match x with
    | 0 =>
      match ms with
      | [] => exact absurd h (by simp [fill_list])
      | m :: ms' =>
        rw [fill_list] at h
        simp only [Option.map_eq_some'] at h
        obtain ⟨ys', hys', rfl⟩ := h
        have hperm := ih ms' ys' hys'
        rw [List.count_cons_self, List.filter_cons_of_neg (by simp)]
        rw [List.take_succ_cons]
        exact (hperm.cons m).trans List.perm_middle.symm
    | n + 1 =>
      rw [fill_list] at h
      simp only [Option.map_eq_some'] at h
      obtain ⟨ys', hys', rfl⟩ := h
      have hperm := ih ms ys' hys'
      rw [List.count_cons_of_ne (by omega),
        List.filter_cons_of_pos (by simp)]
      exact hperm.cons (n + 1)

lemma count_zero_add_filter_length (xs : List Nat) :
    xs.count 0 + (xs.filter (fun x => x != 0)).length = xs.length := by
  induction xs with
  | nil => simp
  | cons x xs ih =>
    by_cases hx : x = 0
    · subst hx
      rw [List.count_cons_self, List.filter_cons_of_neg (by simp), List.length_cons]
      omega
    · rw [List.count_cons_of_ne (by exact fun e => hx e.symm),
        List.filter_cons_of_pos (by simpa using hx), List.length_cons, List.length_cons]
      omega

lemma nonzero_filter_append_missing_perm (xs : List Nat)
    (hnd : (xs.filter (fun x => x != 0)).Nodup) (hle : ∀ x ∈ xs, x ≤ 9) :
    (xs.filter (fun x => x != 0) ++
        (List.range' 1 9).filter (fun n => decide (n ∉ xs))).Perm
      (List.range' 1 9) := by
  have hnd2 : ((List.range' 1 9).filter (fun n => decide (n ∉ xs))).Nodup :=
    (List.nodup_range' 1 9).filter _
  have hdisj :
      ∀ a ∈ xs.filter (fun x => x != 0),
        a ∉ (List.range' 1 9).filter (fun n => decide (n ∉ xs)) := by
    intro a ha hmem
    rw [List.mem_filter] at ha hmem
    exact (of_decide_eq_true hmem.2) ha.1
  have happ : (xs.filter (fun x => x != 0) ++
      (List.range' 1 9).filter (fun n => decide (n ∉ xs))).Nodup := by
    rw [List.nodup_append]
    exact ⟨hnd, hnd2, fun a ha hb => hdisj a ha hb⟩
  refine List.perm_of_nodup_nodup_toFinset_eq happ (List.nodup_range' 1 9) ?_
  ext v
  simp only [List.mem_toFinset, List.mem_append, List.mem_filter,
    List.mem_range'_1, decide_eq_true_eq, bne_iff_ne, ne_eq]
  constructor
  · rintro (⟨hv, hv0⟩ | ⟨hv, _⟩)
    · have := hle v hv
      omega
    · exact hv
  · intro hv
    by_cases hmem : v ∈ xs
    · exact Or.inl ⟨hmem, by omega⟩
    · exact Or.inr ⟨hv, hmem⟩

lemma missing_length_eq_count_zero (xs : List Nat) (hlen : xs.length = 9)
    (hnd : (xs.filter (fun x => x != 0)).Nodup) (hle : ∀ x ∈ xs, x ≤ 9) :
    ((List.range' 1 9).filter (fun n => decide (n ∉ xs))).length = xs.count 0 := by
  have hperm := nonzero_filter_append_missing_perm xs hnd hle
  have hlen2 := hperm.length_eq
  rw [List.length_append, List.length_range'] at hlen2
  have := count_zero_add_filter_length xs
  omega

lemma fill_list_missing_perm (xs : List Nat) (hlen : xs.length = 9)
    (hnd : (xs.filter (fun x => x != 0)).Nodup) (hle : ∀ x ∈ xs, x ≤ 9) :
    ∃ ys, fill_list xs ((List.range' 1 9).filter (fun n => decide (n ∉ xs))) = some ys ∧
      ys.Perm (List.range' 1 9) := by
  have hcount := missing_length_eq_count_zero xs hlen hnd hle
  obtain ⟨ys, hys⟩ := fill_list_isSome xs _ (le_of_eq hcount.symm)
  refine ⟨ys, hys, ?_⟩
  have hperm := fill_list_perm xs _ ys hys
  rw [← hcount, List.take_length] at hperm
  exact hperm.trans (nonzero_filter_append_missing_perm xs hnd hle)

lemma init_row_go_spec (r : Fin 9) :
    ∀ (cs : List (Fin 9)) (ms : List Nat) (b : Board), cs.Nodup →
      (∀ c ∈ cs, b.grid r c = 0 → b.fixed_cells r c = false) →
      (fill_list (cs.map (b.grid r)) ms = none → init_row_go r b ms cs = none) ∧
      (∀ ys, fill_list (cs.map (b.grid r)) ms = some ys →
        ∃ b', init_row_go r b ms cs = some b' ∧
          cs.map (b'.grid r) = ys ∧
          b'.fixed_cells = b.fixed_cells ∧
          (∀ r' c', (r' ≠ r ∨ c' ∉ cs) → b'.grid r' c' = b.grid r' c')) := by
  intro cs
  induction cs with
  | nil =>
    intro ms b _ _
    constructor
    · intro h; simp [fill_list] at h
    · intro ys h
      rcases Option.some.inj h with rfl
      exact ⟨b, rfl, rfl, rfl, fun _ _ _ => rfl⟩
  | cons c cs ih =>
    intro ms b hnd hmask
    rw [List.nodup_cons] at hnd
    by_cases hv : b.grid r c = 0
    · cases ms with
      | nil =>
        constructor
        · intro _
          show (if b.get_value r c = 0 then _ else _) = none
          rw [if_pos (show b.get_value r c = 0 from hv)]
        · intro ys h
          rw [List.map_cons, hv] at h
          simp [fill_list] at h
      | cons m ms' =>
        have hfix : b.fixed_cells r c = false := hmask c (List.mem_cons_self c cs) hv
        have hb1grid : ∀ c' ∈ cs, (b.set_value r c m).grid r c' = b.grid r c' := by
          intro c' hc'
          rw [set_value_grid, if_neg]
          rintro ⟨-, -, rfl⟩
          exact hnd.1 hc'
        have hmap : cs.map ((b.set_value r c m).grid r) = cs.map (b.grid r) :=
          List.map_congr_left hb1grid
        have hmask1 : ∀ c' ∈ cs,
            (b.set_value r c m).grid r c' = 0 → (b.set_value r c m).fixed_cells r c' = false := by
          intro c' hc' hz
          rw [set_value_fixed_cells]
          rw [hb1grid c' hc'] at hz
          exact hmask c' (List.mem_cons_of_mem c hc') hz
        obtain ⟨ihnone, ihsome⟩ := ih ms' (b.set_value r c m) hnd.2 hmask1
        constructor
        · intro h
          rw [List.map_cons, hv, fill_list] at h
          rw [Option.map_eq_none'] at h
          show (if b.get_value r c = 0 then _ else _) = none
          rw [if_pos (show b.get_value r c = 0 from hv)]
          exact ihnone (by rwa [hmap])
        · intro ys h
          rw [List.map_cons, hv, fill_list] at h
          rw [Option.map_eq_some'] at h
          obtain ⟨ys', hys', rfl⟩ := h
          obtain ⟨b', hgo, hmap', hfix', hframe⟩ := ihsome ys' (by rwa [hmap])
          refine ⟨b', ?_, ?_, ?_, ?_⟩
          · show (if b.get_value r c = 0 then _ else _) = some b'
            rw [if_pos (show b.get_value r c = 0 from hv)]
            exact hgo
          · rw [List.map_cons, hmap']
            congr 1
            rw [hframe r c (Or.inr hnd.1), set_value_grid, if_pos ⟨hfix, rfl, rfl⟩]
          · rw [hfix', set_value_fixed_cells]
          · intro r' c' hcond
            have hcond' : r' ≠ r ∨ c' ∉ cs := by
              rcases hcond with h | h
              · exact Or.inl h
              · exact Or.inr (fun hc => h (List.mem_cons_of_mem c hc))
            rw [hframe r' c' hcond', set_value_grid, if_neg]
            rintro ⟨-, h1, h2⟩
            rcases hcond with h | h
            · exact h h1
            · subst h2
              exact h (List.mem_cons_self _ cs)
    · obtain ⟨n, hn⟩ : ∃ n, b.grid r c = n + 1 := ⟨b.grid r c - 1, by omega⟩
      obtain ⟨ihnone, ihsome⟩ :=
        ih ms b hnd.2 (fun c' hc' => hmask c' (List.mem_cons_of_mem c hc'))
      constructor
      · intro h
        rw [List.map_cons, hn, fill_list] at h
        rw [Option.map_eq_none'] at h
        show (if b.get_value r c = 0 then _ else _) = none
        rw [if_neg (show ¬b.get_value r c = 0 from hv)]
        exact ihnone h
      · intro ys h
        rw [List.map_cons, hn, fill_list] at h
        rw [Option.map_eq_some'] at h
        obtain ⟨ys', hys', rfl⟩ := h
        obtain ⟨b', hgo, hmap', hfix', hframe⟩ := ihsome ys' hys'
        refine ⟨b', ?_, ?_, hfix', ?_⟩
        · show (if b.get_value r c = 0 then _ else _) = some b'
          rw [if_neg (show ¬b.get_value r c = 0 from hv)]
          exact hgo
        · rw [List.map_cons, hmap']
          congr 1
          rw [hframe r c (Or.inr hnd.1), hn]
        · intro r' c' hcond
          refine (hframe r' c' ?_)
          rcases hcond with h | h
          · exact Or.inl h
          · exact Or.inr (fun hc => h (List.mem_cons_of_mem c hc))

lemma init_row_spec (b : Board) (r : Fin 9)
    (hnd : (((List.finRange 9).map (b.grid r)).filter (fun x => x != 0)).Nodup)
    (hle : ∀ c, b.grid r c ≤ 9)
    (hmask : ∀ c, b.grid r c = 0 → b.fixed_cells r c = false) :
    ∃ b', init_row b r = some b' ∧
      ((List.finRange 9).map (b'.grid r)).Perm (List.range' 1 9) ∧
      b'.fixed_cells = b.fixed_cells ∧
      (∀ r' c', r' ≠ r → b'.grid r' c' = b.grid r' c') := by
  have hlen : ((List.finRange 9).map (b.grid r)).length = 9 := by simp
  have hle' : ∀ x ∈ (List.finRange 9).map (b.grid r), x ≤ 9 := by
    intro x hx
    obtain ⟨c, _, rfl⟩ := List.mem_map.1 hx
    exact hle c
  obtain ⟨ys, hys, hperm⟩ := fill_list_missing_perm _ hlen hnd hle'
  obtain ⟨-, hsome⟩ :=
    init_row_go_spec r (List.finRange 9) _ b (List.nodup_finRange 9) (fun c _ => hmask c)
  obtain ⟨b', hgo, hmap, hfix, hframe⟩ := hsome ys hys
  refine ⟨b', ?_, ?_, hfix, ?_⟩
  · exact hgo
  · rw [hmap]
    exact hperm
  · intro r' c' h
    exact hframe r' c' (Or.inl h)

lemma foldlM_init_rows : ∀ (rs : List (Fin 9)) (b : Board), rs.Nodup →
    (∀ r ∈ rs, RowHyp b r) →
    ∃ b', rs.foldlM init_row b = some b' ∧
      (∀ r ∈ rs, ((List.finRange 9).map (b'.grid r)).Perm (List.range' 1 9)) ∧
      b'.fixed_cells = b.fixed_cells ∧
      (∀ r', r' ∉ rs → ∀ c', b'.grid r' c' = b.grid r' c') := by
  intro rs
  induction rs with
  | nil =>
    intro b _ _
    exact ⟨b, rfl, by simp, rfl, fun _ _ _ => rfl⟩
  | cons r rs ih =>
    intro b hnd hhyp
    rw [List.nodup_cons] at hnd
    obtain ⟨h1, h2, h3⟩ := hhyp r (List.mem_cons_self r rs)
    obtain ⟨b1, hinit, hperm1, hfix1, hframe1⟩ := init_row_spec b r h1 h2 h3
    have hhyp1 : ∀ r' ∈ rs, RowHyp b1 r' := by
      intro r' hr'
      have hne : r' ≠ r := fun e => hnd.1 (e ▸ hr')
      obtain ⟨g1, g2, g3⟩ := hhyp r' (List.mem_cons_of_mem r hr')
      have hrow : ∀ c', b1.grid r' c' = b.grid r' c' := fun c' => hframe1 r' c' hne
      refine ⟨?_, ?_, ?_⟩
      · rwa [List.map_congr_left (fun c _ => hrow c)]
      · intro c
        rw [hrow c]
        exact g2 c
      · intro c hz
        rw [hfix1]
        rw [hrow c] at hz
        exact g3 c hz
    obtain ⟨b', hfold, hperm', hfix', hframe'⟩ := ih b1 hnd.2 hhyp1
    refine ⟨b', ?_, ?_, by rw [hfix', hfix1], ?_⟩
    · rw [List.foldlM_cons, hinit]
      exact hfold
    · intro r0 hr0
      rcases List.mem_cons.1 hr0 with rfl | hr0'
      · have heq : ∀ c, b'.grid r0 c = b1.grid r0 c := fun c => hframe' r0 hnd.1 c
        rwa [List.map_congr_left (fun c _ => heq c)]
      · exact hperm' r0 hr0'
    · intro r0 hr0 c'
      have hne : r0 ≠ r := fun e => hr0 (by rw [e]; exact List.mem_cons_self r rs)
      rw [hframe' r0 (fun h => hr0 (List.mem_cons_of_mem r h)) c', hframe1 r0 c' hne]

lemma initialise_board_spec (b : Board) (h : ∀ r, RowHyp b r) :
    ∃ b', initialise_board b = some b' ∧
      (∀ r, ((List.finRange 9).map (b'.grid r)).Perm (List.range' 1 9)) ∧
      b'.fixed_cells = b.fixed_cells := by
  obtain ⟨b', hfold, hperm, hfix, -⟩ :=
    foldlM_init_rows (List.finRange 9) b (List.nodup_finRange 9) (fun r _ => h r)
  exact ⟨b', hfold, fun r => hperm r (List.mem_finRange r), hfix⟩

/-! ### Helper lemmas: preservation of fixed cells -/

lemma fixedPreserved_refl (b : Board) : FixedPreserved b b :=
  ⟨rfl, fun _ _ _ => rfl⟩

lemma fixedPreserved_trans {a b c : Board}
    (h1 : FixedPreserved a b) (h2 : FixedPreserved b c) : FixedPreserved a c := by
  refine ⟨h2.1.trans h1.1, fun r cc h => ?_⟩
  rw [h2.2 r cc (by rw [h1.1]; exact h)]
  exact h1.2 r cc h

lemma set_value_fixedPreserved (b : Board) (row col : Fin 9) (v : Nat) :
    FixedPreserved b (b.set_value row col v) :=
  ⟨set_value_fixed_cells b row col v,
   fun r c h => set_value_fixed_grid_preserved b row col v r c h⟩

lemma swap_values_fixedPreserved (b : Board) (c1 c2 : Coord) :
    FixedPreserved b (swap_values b c1 c2) :=
  ⟨swap_values_fixed_cells b c1 c2,
   fun r c h => swap_values_fixed_grid_preserved b c1 c2 r c h⟩

lemma reset_fixedPreserved (b : Board) : FixedPreserved b b.reset := by
  refine ⟨rfl, fun r c h => ?_⟩
  show (if b.fixed_cells r c then b.grid r c else 0) = b.grid r c
  rw [if_pos h]

lemma init_row_go_fixedPreserved (r : Fin 9) :
    ∀ (cs : List (Fin 9)) (ms : List Nat) (b b' : Board),
      init_row_go r b ms cs = some b' → FixedPreserved b b' := by
  intro cs
  induction cs with
  | nil =>
    intro ms b b' h
    rcases Option.some.inj h with rfl
    exact fixedPreserved_refl b
  | cons c cs ih =>
    intro ms b b' h
    rw [init_row_go.eq_def] at h
    dsimp only at h
    by_cases hv : b.get_value r c = 0
    · rw [if_pos hv] at h
      match ms with
      | [] => exact absurd h (by simp)
      | m :: ms' =>
        exact fixedPreserved_trans (set_value_fixedPreserved b r c m) (ih ms' _ b' h)
    · rw [if_neg hv] at h
      exact ih ms b b' h

lemma foldlM_fixedPreserved {α : Type} (f : Board → α → Option Board)
    (hf : ∀ b x b', f b x = some b' → FixedPreserved b b') :
    ∀ (l : List α) (b b' : Board), l.foldlM f b = some b' → FixedPreserved b b' := by
  intro l
  induction l with
  | nil =>
    intro b b' h
    rcases Option.some.inj h with rfl
    exact fixedPreserved_refl b
  | cons x l ih =>
    intro b b' h
    rw [List.foldlM_cons] at h
    match hx : f b x with
    | none => rw [hx] at h; exact absurd h (by simp)
    | some b1 =>
      rw [hx] at h
      exact fixedPreserved_trans (hf b x b1 hx) (ih b1 b' h)

lemma initialise_board_fixedPreserved (b b' : Board)
    (h : initialise_board b = some b') : FixedPreserved b b' :=
  foldlM_fixedPreserved init_row
    (fun b0 r b1 h1 => init_row_go_fixedPreserved r (List.finRange 9) _ b0 b1 h1)
    (List.finRange 9) b b' h

lemma solver_iteration_fixedPreserved (b : Board) (cc : Nat) (T : ℝ)
    (c1 c2 : Coord) (u : ℝ) :
    FixedPreserved b (solver_iteration b cc T c1 c2 u).1 := by
  unfold solver_iteration
  dsimp only
  split
  · exact swap_values_fixedPreserved b c1 c2
  · exact fixedPreserved_trans (swap_values_fixedPreserved b c1 c2)
      (swap_values_fixedPreserved _ c1 c2)

lemma solver_step_board (O : Oracle) (Ti : ℝ) (ms : Nat) (d : ℝ)
    (coord1 coord2 : Coord) (s : SState) :
    (solver_step O Ti ms d coord1 coord2 s).board =
      (solver_iteration s.board s.current_cost s.T coord1 coord2
        (O.accept s.iterations)).1 := by
  unfold solver_step
  dsimp only
  split <;> split <;> rfl

lemma solver_loop_fixedPreserved (O : Oracle) (Ti : ℝ) (ms : Nat) (d : ℝ)
    (mc : List Coord) :
    ∀ (fuel : Nat) (s s' : SState),
      solver_loop O Ti ms d mc fuel s = some s' →
      FixedPreserved s.board s'.board := by
  intro fuel
  induction fuel with
  | zero =>
    intro s s' h
    rcases Option.some.inj h with rfl
    exact fixedPreserved_refl _
  | succ n ih =>
    intro s s' h
    rw [solver_loop] at h
    by_cases hc : s.current_cost = 0
    · rw [if_pos hc] at h
      rcases Option.some.inj h with rfl
      exact fixedPreserved_refl _
    · rw [if_neg hc] at h
      cases hsel : loop_select O mc s with
      | none => rw [hsel] at h; exact absurd h (by simp)
      | some pq =>
        obtain ⟨coord1, coord2⟩ := pq
        rw [hsel] at h
        exact fixedPreserved_trans
          (by rw [solver_step_board]
              exact solver_iteration_fixedPreserved s.board s.current_cost s.T coord1
                coord2 (O.accept s.iterations))
          (ih _ s' h)

lemma solver_run_fixedPreserved (O : Oracle) (b : Board) (T : ℝ)
    (mi ms : Nat) (d : ℝ) (s : SState)
    (h : solver_run O b T mi ms d = some s) : FixedPreserved b s.board := by
  unfold solver_run at h
  split at h
  · exact absurd h (by simp)
  · rename_i b0 hinit
    exact fixedPreserved_trans (initialise_board_fixedPreserved b b0 hinit)
      (solver_loop_fixedPreserved _ _ _ _ _ mi _ s h)

lemma apply_op_fixedPreserved (b : Board) (op : BoardOp) (b' : Board)
    (h : apply_op b op = some b') : FixedPreserved b b' := by
  cases op with
  | set row col v =>
    rcases Option.some.inj h with rfl
    exact set_value_fixedPreserved b row col v
  | swap c1 c2 =>
    rcases Option.some.inj h with rfl
    exact swap_values_fixedPreserved b c1 c2
  | reset =>
    rcases Option.some.inj h with rfl
    exact reset_fixedPreserved b
  | initialise => exact initialise_board_fixedPreserved b b' h

lemma apply_ops_fixedPreserved (b : Board) (ops : List BoardOp) (b' : Board)
    (h : apply_ops b ops = some b') : FixedPreserved b b' :=
  foldlM_fixedPreserved apply_op apply_op_fixedPreserved ops b b' h

/-! ### Helper lemmas: the solver loop -/

lemma init_row_go_no_zero (r : Fin 9) :
    ∀ (cs : List (Fin 9)) (ms : List Nat) (b : Board),
      (∀ c ∈ cs, b.grid r c ≠ 0) → init_row_go r b ms cs = some b := by
  intro cs
  induction cs with
  | nil => intro ms b _; rfl
  | cons c cs ih =>
    intro ms b h
    rw [init_row_go.eq_def]
    dsimp only
    rw [if_neg (show ¬b.get_value r c = 0 from h c (List.mem_cons_self c cs))]
    exact ih ms b (fun c' hc' => h c' (List.mem_cons_of_mem c hc'))

lemma init_row_no_zero (b : Board) (r : Fin 9) (h : ∀ c, b.grid r c ≠ 0) :
    init_row b r = some b :=
  init_row_go_no_zero r (List.finRange 9) _ b (fun c _ => h c)

lemma initialise_board_no_zero (b : Board) (h : ∀ r c, b.grid r c ≠ 0) :
    initialise_board b = some b := by
  have hgen : ∀ rs : List (Fin 9), rs.foldlM init_row b = some b := by
    intro rs
    induction rs with
    | nil => rfl
    | cons r rs ih =>
      rw [List.foldlM_cons, init_row_no_zero b r (fun c => h r c)]
      exact ih
  exact hgen (List.finRange 9)

lemma solver_loop_exit (O : Oracle) (Ti : ℝ) (ms : Nat) (d : ℝ) (mc : List Coord)
    (fuel : Nat) (s : SState) (h : s.current_cost = 0) :
    solver_loop O Ti ms d mc fuel s = some s := by
  cases fuel with
  | zero => rfl
  | succ n => rw [solver_loop, if_pos h]

lemma solver_run_init (O : Oracle) (b : Board) (T : ℝ) (mi ms : Nat) (d : ℝ)
    (b0 : Board) (hinit : initialise_board b = some b0) :
    solver_run O b T mi ms d =
      solver_loop O T ms d b0.get_modifiable_coordinates mi
        ⟨b0, T, cost_function b0, cost_function b0, 0, 0⟩ := by
  unfold solver_run
  rw [hinit]

lemma headD_mem : ∀ l : List Coord, l ≠ [] →
    l.headD ((0 : Fin 9), (0 : Fin 9)) ∈ l := by
  intro l hl
  cases l with
  | nil => exact absurd rfl hl
  | cons a t => exact List.mem_cons_self a t

/-! ### The claims -/

/-- C1: `cost_function(board) = 0` iff `board.is_valid()` returns true and
every cell of the grid is nonzero (fully filled, no duplicate in any of the
27 groups). -/
theorem C1_cost_zero_iff_valid_and_filled (b : Board) :
    cost_function b = 0 ↔ (b.is_valid = true ∧ ∀ r c, b.get_value r c ≠ 0) :=
  cost_function_eq_zero_iff b

/-- C6 counterexample: on a board with a fixed 1 at (0,0) and a modifiable 2
at (0,1), swapping the pair ((0,0),(0,1)) twice does not restore the grid —
the write to the fixed cell is dropped, so (0,1) ends as 1, not 2.  The
claim's "for every pair of coordinates" is therefore false. -/
theorem C6_counterexample :
    (swap_values (swap_values demo_mixed ((0 : Fin 9), (0 : Fin 9))
          ((0 : Fin 9), (1 : Fin 9)))
        ((0 : Fin 9), (0 : Fin 9)) ((0 : Fin 9), (1 : Fin 9))).grid 0 1 ≠
      demo_mixed.grid 0 1 := by
  decide

/-- C6 (amended): for every pair of coordinates whose fixed-mask entries are
both false, applying `swap_values` twice restores the original grid (and the
mask is never touched). -/
theorem C6_swap_involutive_on_modifiable (b : Board) (c1 c2 : Coord)
    (h1 : b.is_cell_fixed c1.1 c1.2 = false)
    (h2 : b.is_cell_fixed c2.1 c2.2 = false) :
    (swap_values (swap_values b c1 c2) c1 c2).grid = b.grid ∧
    (swap_values (swap_values b c1 c2) c1 c2).fixed_cells = b.fixed_cells :=
  ⟨swap_swap_grid b c1 c2 h1 h2,
   by rw [swap_values_fixed_cells, swap_values_fixed_cells]⟩

theorem C6_witness :
    (swap_values (swap_values (Board.ofGrid demo_empty) ((0 : Fin 9), (0 : Fin 9))
          ((0 : Fin 9), (1 : Fin 9)))
        ((0 : Fin 9), (0 : Fin 9)) ((0 : Fin 9), (1 : Fin 9))).grid =
      (Board.ofGrid demo_empty).grid ∧
    (swap_values (swap_values (Board.ofGrid demo_empty) ((0 : Fin 9), (0 : Fin 9))
          ((0 : Fin 9), (1 : Fin 9)))
        ((0 : Fin 9), (0 : Fin 9)) ((0 : Fin 9), (1 : Fin 9))).fixed_cells =
      (Board.ofGrid demo_empty).fixed_cells :=
  C6_swap_involutive_on_modifiable (Board.ofGrid demo_empty) _ _ (by decide) (by decide)

/-- C7: `group_cost` charges the full count for the value 0 and count minus
one for each distinct nonzero value; hence a group holding each of 1..9 once
costs 0, an all-zero group costs 9, and a group with one zero and one digit
repeated twice costs at least 2. -/
theorem C7_group_cost_characterisation :
    (∀ g : List Nat, group_cost g =
      ∑ v ∈ g.toFinset, (if v = 0 then g.count v else g.count v - 1)) ∧
    (∀ g : List Nat, g.Perm (List.range' 1 9) → group_cost g = 0) ∧
    group_cost (List.replicate 9 0) = 9 ∧
    (∀ (g : List Nat) (d : Nat), g.count 0 = 1 → d ≠ 0 → g.count d = 2 →
      2 ≤ group_cost g) := by
  refine ⟨?_, group_cost_eq_zero_of_perm_range, by decide, ?_⟩
  · intro g
    unfold group_cost
    have hfs : g.dedup.toFinset = g.toFinset := by
      ext v
      simp [List.mem_toFinset, List.mem_dedup]
    rw [← hfs, List.sum_toFinset _ (List.nodup_dedup g)]
  · intro g d h0 hd h2
    have hmem0 : (0 : Nat) ∈ g := List.count_pos_iff.1 (by omega)
    have hmemd : d ∈ g := List.count_pos_iff.1 (by omega)
    have hb := dedup_sum_pair_le g
      (fun num => if num = 0 then g.count num else g.count num - 1) 0 d
      hmem0 hmemd (fun e => hd e.symm)
    dsimp only at hb
    rw [if_pos rfl, if_neg hd, h0, h2] at hb
    unfold group_cost
    exact hb

theorem C7_witness :
    group_cost [9, 8, 7, 6, 5, 4, 3, 2, 1] = 0 ∧
    2 ≤ group_cost [0, 2, 2, 3, 4, 5, 6, 7, 8] :=
  ⟨C7_group_cost_characterisation.2.1 _ (by decide),
   C7_group_cost_characterisation.2.2.2 _ 2 (by decide) (by decide) (by decide)⟩

/-- C8: `copy_board` copies the grid cell-for-cell but recomputes the fixed
mask from the copied grid's nonzero-ness. -/
theorem C8_copy_recomputes_mask (b : Board) (r c : Fin 9) :
    b.copy_board.get_value r c = b.get_value r c ∧
    (b.copy_board.is_cell_fixed r c = true ↔ b.get_value r c ≠ 0) := by
  refine ⟨rfl, ?_⟩
  show (b.grid r c != 0) = true ↔ b.grid r c ≠ 0
  simp [bne_iff_ne]

/-- C8 demonstration: a modifiable cell currently holding a nonzero value
becomes fixed in the copy, differing from the original mask. -/
theorem C8_witness :
    demo_mixed.is_cell_fixed 0 1 = false ∧
    demo_mixed.copy_board.is_cell_fixed 0 1 = true :=
  ⟨by decide, (C8_copy_recomputes_mask demo_mixed 0 1).2.2 (by decide)⟩

/-- C10: on two distinct modifiable coordinates, `swap_values` exchanges
exactly the two values and leaves every other cell (and the mask)
unchanged. -/
theorem C10_swap_exchanges_and_frames (b : Board) (c1 c2 : Coord)
    (h1 : b.is_cell_fixed c1.1 c1.2 = false)
    (h2 : b.is_cell_fixed c2.1 c2.2 = false) (hne : c1 ≠ c2) :
    (swap_values b c1 c2).get_value c1.1 c1.2 = b.get_value c2.1 c2.2 ∧
    (swap_values b c1 c2).get_value c2.1 c2.2 = b.get_value c1.1 c1.2 ∧
    (∀ r c, ¬(r = c1.1 ∧ c = c1.2) → ¬(r = c2.1 ∧ c = c2.2) →
      (swap_values b c1 c2).get_value r c = b.get_value r c) ∧
    (swap_values b c1 c2).fixed_cells = b.fixed_cells :=
  ⟨swap_values_grid_first b c1 c2 h1 hne,
   swap_values_grid_second b c1 c2 h2,
   fun r c hr hc => swap_values_grid_frame b c1 c2 r c hr hc,
   swap_values_fixed_cells b c1 c2⟩

theorem C10_witness :
    (swap_values demo_b3 ((0 : Fin 9), (0 : Fin 9)) ((1 : Fin 9), (0 : Fin 9))).get_value 0 0 =
      demo_b3.get_value 1 0 ∧
    (swap_values demo_b3 ((0 : Fin 9), (0 : Fin 9)) ((1 : Fin 9), (0 : Fin 9))).get_value 1 0 =
      demo_b3.get_value 0 0 ∧
    (∀ r c, ¬(r = (0 : Fin 9) ∧ c = (0 : Fin 9)) → ¬(r = (1 : Fin 9) ∧ c = (0 : Fin 9)) →
      (swap_values demo_b3 ((0 : Fin 9), (0 : Fin 9)) ((1 : Fin 9), (0 : Fin 9))).get_value r c =
        demo_b3.get_value r c) ∧
    (swap_values demo_b3 ((0 : Fin 9), (0 : Fin 9)) ((1 : Fin 9), (0 : Fin 9))).fixed_cells =
      demo_b3.fixed_cells :=
  C10_swap_exchanges_and_frames demo_b3 _ _ (by decide) (by decide) (by decide)

/-- C3 counterexample: on the initialised two-blank board, with `coord1` drawn
as (0,0), the same-row candidate set is empty, yet `select_coordinates` does
not re-draw `coord1`: the live "Algorithm 2" block runs and returns the pair
((0,0),(1,0)), whose coordinates lie in different rows. -/
theorem C3_counterexample :
    row_coords demo_b3.get_modifiable_coordinates ((0 : Fin 9), (0 : Fin 9)) = [] ∧
    select_coordinates 5 demo_b3.get_modifiable_coordinates demo_b3
        ((0 : Fin 9), (0 : Fin 9)) (fun l => l.headD ((0 : Fin 9), (0 : Fin 9)))
        (fun _ => ((1 : Fin 9), (0 : Fin 9)))
      = some (((0 : Fin 9), (0 : Fin 9)), ((1 : Fin 9), (0 : Fin 9))) ∧
    ((0 : Fin 9) ≠ (1 : Fin 9)) := by
  refine ⟨by decide, by decide, by decide⟩

/-- C3 (amended): when the same-row candidate set is nonempty, the pair is
`coord1` with a uniform draw from that set (same row); when it is empty, the
selector does not re-draw `coord1` — it falls through to the live
"Algorithm 2" inner loop, returning `coord1` unchanged paired with a draw
from all of `coords` whose value differs from `coord1`'s (possibly in a
different row). -/
theorem C3_empty_row_falls_through_to_algorithm2 (fuel : Nat)
    (coords : List Coord) (b : Board) (coord1 : Coord)
    (pick_row : List Coord → Coord) (stream : Nat → Coord)
    (hrow : ∀ l, l ≠ [] → pick_row l ∈ l) :
    (row_coords coords coord1 ≠ [] →
      select_coordinates fuel coords b coord1 pick_row stream
          = some (coord1, pick_row (row_coords coords coord1)) ∧
      (pick_row (row_coords coords coord1)).1 = coord1.1) ∧
    (row_coords coords coord1 = [] →
      select_coordinates fuel coords b coord1 pick_row stream
          = algorithm2_loop b coord1 stream fuel 0 ∧
      ∀ p, select_coordinates fuel coords b coord1 pick_row stream = some p →
        p.1 = coord1 ∧
        b.get_value p.2.1 p.2.2 ≠ b.get_value coord1.1 coord1.2) := by
  constructor
  · intro hne
    constructor
    · unfold select_coordinates
      dsimp only
      rw [if_pos hne]
    · exact (row_coords_mem coords coord1 _ (hrow _ hne)).2.1
  · intro hempty
    have hsel : select_coordinates fuel coords b coord1 pick_row stream
        = algorithm2_loop b coord1 stream fuel 0 := by
      unfold select_coordinates
      dsimp only
      rw [if_neg (fun hne => hne hempty)]
    refine ⟨hsel, fun p hp => ?_⟩
    rw [hsel] at hp
    obtain ⟨h1, -, h3⟩ := algorithm2_loop_spec b coord1 stream fuel 0 p hp
    exact ⟨h1, h3⟩

theorem C3_witness :
    (row_coords [((0 : Fin 9), (0 : Fin 9))] ((0 : Fin 9), (0 : Fin 9)) ≠ [] →
      select_coordinates 1 [((0 : Fin 9), (0 : Fin 9))] (Board.ofGrid demo_empty)
          ((0 : Fin 9), (0 : Fin 9)) (fun l : List Coord => l.headD ((0 : Fin 9), (0 : Fin 9)))
          (fun _ => ((0 : Fin 9), (0 : Fin 9)))
        = some (((0 : Fin 9), (0 : Fin 9)),
            (fun l : List Coord => l.headD ((0 : Fin 9), (0 : Fin 9)))
              (row_coords [((0 : Fin 9), (0 : Fin 9))] ((0 : Fin 9), (0 : Fin 9)))) ∧
      ((fun l : List Coord => l.headD ((0 : Fin 9), (0 : Fin 9)))
          (row_coords [((0 : Fin 9), (0 : Fin 9))] ((0 : Fin 9), (0 : Fin 9)))).1 =
        ((0 : Fin 9), (0 : Fin 9)).1) ∧
    (row_coords [((0 : Fin 9), (0 : Fin 9))] ((0 : Fin 9), (0 : Fin 9)) = [] →
      select_coordinates 1 [((0 : Fin 9), (0 : Fin 9))] (Board.ofGrid demo_empty)
          ((0 : Fin 9), (0 : Fin 9)) (fun l : List Coord => l.headD ((0 : Fin 9), (0 : Fin 9)))
          (fun _ => ((0 : Fin 9), (0 : Fin 9)))
        = algorithm2_loop (Board.ofGrid demo_empty) ((0 : Fin 9), (0 : Fin 9))
            (fun _ => ((0 : Fin 9), (0 : Fin 9))) 1 0 ∧
      ∀ p, select_coordinates 1 [((0 : Fin 9), (0 : Fin 9))] (Board.ofGrid demo_empty)
          ((0 : Fin 9), (0 : Fin 9)) (fun l : List Coord => l.headD ((0 : Fin 9), (0 : Fin 9)))
          (fun _ => ((0 : Fin 9), (0 : Fin 9)))
        = some p →
        p.1 = ((0 : Fin 9), (0 : Fin 9)) ∧
        (Board.ofGrid demo_empty).get_value p.2.1 p.2.2 ≠
          (Board.ofGrid demo_empty).get_value ((0 : Fin 9), (0 : Fin 9)).1
            ((0 : Fin 9), (0 : Fin 9)).2) :=
  C3_empty_row_falls_through_to_algorithm2 1 [((0 : Fin 9), (0 : Fin 9))]
    (Board.ofGrid demo_empty) ((0 : Fin 9), (0 : Fin 9))
    (fun l : List Coord => l.headD ((0 : Fin 9), (0 : Fin 9)))
    (fun _ => ((0 : Fin 9), (0 : Fin 9))) headD_mem

/-- C4: on a board freshly constructed from a grid of digits whose rows hold
no duplicate nonzero digit, `initialise_board` succeeds and every row of the
result is a permutation of 1..9 (hence has zero row-group cost). -/
theorem C4_initialise_completes_rows (g : Fin 9 → Fin 9 → Nat)
    (hle : ∀ r c, g r c ≤ 9)
    (hnd : ∀ r, (((List.finRange 9).map (g r)).filter (fun x => x != 0)).Nodup) :
    ∃ b', initialise_board (Board.ofGrid g) = some b' ∧
      ∀ r, ((List.finRange 9).map (b'.grid r)).Perm (List.range' 1 9) ∧
        group_cost ((List.finRange 9).map (b'.grid r)) = 0 := by
  have h : ∀ r, RowHyp (Board.ofGrid g) r := by
    intro r
    refine ⟨hnd r, fun c => hle r c, fun c hz => ?_⟩
    have hz' : g r c = 0 := hz
    show (g r c != 0) = false
    simp [hz']
  obtain ⟨b', hinit, hperm, -⟩ := initialise_board_spec _ h
  exact ⟨b', hinit,
    fun r => ⟨hperm r, group_cost_eq_zero_of_perm_range _ (hperm r)⟩⟩

theorem C4_witness :
    ∃ b', initialise_board (Board.ofGrid demo_one_blank) = some b' ∧
      ∀ r, ((List.finRange 9).map (b'.grid r)).Perm (List.range' 1 9) ∧
        group_cost ((List.finRange 9).map (b'.grid r)) = 0 :=
  C4_initialise_completes_rows demo_one_blank (by decide) (by decide)

/-- C5: a coordinate whose fixed mask is true is never mutated: `set_value`
there is a no-op for every value, and its value survives every sequence of
`set_value`, `swap_values`, `reset` and `initialise_board` calls, as well as
a whole `solver` run. -/
theorem C5_fixed_cells_never_mutated (b : Board) (r c : Fin 9)
    (h : b.is_cell_fixed r c = true) :
    (∀ v, (b.set_value r c v).get_value r c = b.get_value r c) ∧
    (∀ (ops : List BoardOp) (b' : Board), apply_ops b ops = some b' →
      b'.get_value r c = b.get_value r c ∧ b'.is_cell_fixed r c = true) ∧
    (∀ (O : Oracle) (T : ℝ) (mi ms : Nat) (d : ℝ) (s : SState),
      solver_run O b T mi ms d = some s →
      s.board.get_value r c = b.get_value r c) := by
  refine ⟨fun v => set_value_fixed_grid_preserved b r c v r c h, ?_, ?_⟩
  · intro ops b' hb'
    have hfp := apply_ops_fixedPreserved b ops b' hb'
    refine ⟨hfp.2 r c h, ?_⟩
    show b'.fixed_cells r c = true
    rw [hfp.1]
    exact h
  · intro O T mi ms d s hs
    exact (solver_run_fixedPreserved O b T mi ms d s hs).2 r c h

theorem C5_witness :
    (∀ v, ((Board.ofGrid demo_solution).set_value 0 0 v).get_value 0 0 =
      (Board.ofGrid demo_solution).get_value 0 0) ∧
    (∀ (ops : List BoardOp) (b' : Board),
      apply_ops (Board.ofGrid demo_solution) ops = some b' →
      b'.get_value 0 0 = (Board.ofGrid demo_solution).get_value 0 0 ∧
      b'.is_cell_fixed 0 0 = true) ∧
    (∀ (O : Oracle) (T : ℝ) (mi ms : Nat) (d : ℝ) (s : SState),
      solver_run O (Board.ofGrid demo_solution) T mi ms d = some s →
      s.board.get_value 0 0 = (Board.ofGrid demo_solution).get_value 0 0) :=
  C5_fixed_cells_never_mutated (Board.ofGrid demo_solution) 0 0 (by decide)

/-- C9 counterexample: the one-blank puzzle is not already solved (its total
cost is nonzero), yet `solver` with `max_iterations = 0` returns true,
because `initialise_board` itself completes the puzzle before the loop
condition is first tested. -/
theorem C9_counterexample :
    cost_function (Board.ofGrid demo_one_blank) ≠ 0 ∧
    solver demo_oracle (Board.ofGrid demo_one_blank) 2 0 1500 (999 / 1000)
      = some true := by
  refine ⟨by decide, ?_⟩
  rfl

/-- C9 (amended): with `max_iterations = 0` the loop body never runs and
`solver` returns true iff the total cost after `initialise_board` is zero
(the final state is the initial state, iteration count 0); a puzzle that was
already solved is sufficient for this but not necessary.  Given an
already-complete valid grid, `initialise_board` changes nothing, the start
cost is 0, and `solver` returns true with iteration count 0 for every
iteration budget. -/
theorem C9_zero_budget_and_solved_input :
    (∀ (O : Oracle) (b : Board) (T : ℝ) (ms : Nat) (d : ℝ) (b0 : Board),
      initialise_board b = some b0 →
      solver_run O b T 0 ms d =
        some ⟨b0, T, cost_function b0, cost_function b0, 0, 0⟩ ∧
      solver O b T 0 ms d = some (cost_function b0 == 0)) ∧
    (∀ (O : Oracle) (b : Board) (T : ℝ) (mi ms : Nat) (d : ℝ),
      b.is_valid = true → (∀ r c, b.get_value r c ≠ 0) →
      solver_run O b T mi ms d = some ⟨b, T, 0, 0, 0, 0⟩ ∧
      solver O b T mi ms d = some true) := by
  constructor
  · intro O b T ms d b0 hinit
    have hrun : solver_run O b T 0 ms d =
        some ⟨b0, T, cost_function b0, cost_function b0, 0, 0⟩ := by
      rw [solver_run_init O b T 0 ms d b0 hinit]
      rfl
    refine ⟨hrun, ?_⟩
    unfold solver
    rw [hrun]
    rfl
  · intro O b T mi ms d hvalid hnz
    have hcost : cost_function b = 0 :=
      (cost_function_eq_zero_iff b).2 ⟨hvalid, hnz⟩
    have hinit : initialise_board b = some b := initialise_board_no_zero b hnz
    have hrun : solver_run O b T mi ms d = some ⟨b, T, 0, 0, 0, 0⟩ := by
      rw [solver_run_init O b T mi ms d b hinit, hcost]
      exact solver_loop_exit O T ms d b.get_modifiable_coordinates mi _ rfl
    refine ⟨hrun, ?_⟩
    unfold solver
    rw [hrun]
    rfl

theorem C9_witness :
    solver demo_oracle (Board.ofGrid demo_solution) 1 5 1500 1 = some true := by
  have hnz : ∀ r c, (Board.ofGrid demo_solution).get_value r c ≠ 0 := by decide
  exact (C9_zero_budget_and_solved_input.2 demo_oracle (Board.ofGrid demo_solution)
    1 5 1500 1 (by decide) hnz).2

/-- C2: once a pair has been returned by `select_coordinates` over the
board's modifiable coordinates (with draws that stay inside their
populations), the swap/evaluate step keeps the swap and sets the cost to
`new_cost` exactly when `delta_cost < 0` or the uniform draw is below
`exp(-delta_cost / T)`; in every other case the board's grid (and mask)
return to their pre-swap state and the cost is unchanged. -/
theorem C2_metropolis_acceptance (b : Board) (current_cost : Nat) (T u : ℝ)
    (fuel : Nat) (coord1 : Coord) (pick_row : List Coord → Coord)
    (stream : Nat → Coord) (c1 c2 : Coord) (new_cost : Nat) (delta_cost : ℤ)
    (hdraw : coord1 ∈ b.get_modifiable_coordinates)
    (hrow : ∀ l, l ≠ [] → pick_row l ∈ l)
    (hstream : ∀ k, stream k ∈ b.get_modifiable_coordinates)
    (hsel : select_coordinates fuel b.get_modifiable_coordinates b coord1
      pick_row stream = some (c1, c2))
    (hnc : new_cost = cost_function (swap_values b c1 c2))
    (hdelta : delta_cost = (new_cost : ℤ) - (current_cost : ℤ)) :
    ((delta_cost < 0 ∨ u < Real.exp (-(delta_cost : ℝ) / T)) →
      solver_iteration b current_cost T c1 c2 u =
        (swap_values b c1 c2, new_cost)) ∧
    (¬(delta_cost < 0 ∨ u < Real.exp (-(delta_cost : ℝ) / T)) →
      (solver_iteration b current_cost T c1 c2 u).1.grid = b.grid ∧
      (solver_iteration b current_cost T c1 c2 u).1.fixed_cells = b.fixed_cells ∧
      (solver_iteration b current_cost T c1 c2 u).2 = current_cost) := by
  have hmem := select_coordinates_mem fuel b.get_modifiable_coordinates b coord1
    pick_row stream (c1, c2) hdraw hrow hstream hsel
  have h1 : b.fixed_cells c1.1 c1.2 = false := (mem_get_modifiable_iff b c1).1 hmem.1
  have h2 : b.fixed_cells c2.1 c2.2 = false := (mem_get_modifiable_iff b c2).1 hmem.2
  constructor
  · intro hcond
    rw [hdelta, hnc] at hcond
    rw [hnc]
    unfold solver_iteration
    dsimp only
    split
    · rfl
    · exact absurd hcond (by assumption)
  · intro hcond
    rw [hdelta, hnc] at hcond
    have hsi : solver_iteration b current_cost T c1 c2 u =
        (swap_values (swap_values b c1 c2) c1 c2, current_cost) := by
      unfold solver_iteration
      dsimp only
      split
      · exact absurd (by assumption) hcond
      · rfl
    rw [hsi]
    exact ⟨swap_swap_grid b c1 c2 h1 h2,
      by rw [swap_values_fixed_cells, swap_values_fixed_cells], rfl⟩

theorem C2_witness :
    (solver_iteration (Board.ofGrid demo_empty) 0 1 ((0 : Fin 9), (0 : Fin 9))
      ((0 : Fin 9), (1 : Fin 9)) 1).1.grid = (Board.ofGrid demo_empty).grid ∧
    (solver_iteration (Board.ofGrid demo_empty) 0 1 ((0 : Fin 9), (0 : Fin 9))
      ((0 : Fin 9), (1 : Fin 9)) 1).2 = 0 := by
  have hs : ((0 : Fin 9), (0 : Fin 9)) ∈
      (Board.ofGrid demo_empty).get_modifiable_coordinates := by decide
  have h := C2_metropolis_acceptance (Board.ofGrid demo_empty) 0 1 1 1
    ((0 : Fin 9), (0 : Fin 9))
    (fun l : List Coord => l.headD ((0 : Fin 9), (0 : Fin 9)))
    (fun _ => ((0 : Fin 9), (0 : Fin 9)))
    ((0 : Fin 9), (0 : Fin 9)) ((0 : Fin 9), (1 : Fin 9)) 243 243
    hs headD_mem (fun _ => hs) (by decide) (by decide) (by decide)
  have hcond : ¬(((243 : ℤ) < 0) ∨ (1 : ℝ) < Real.exp (-((243 : ℤ) : ℝ) / 1)) := by
    rintro (hlt | hexp)
    · exact absurd hlt (by decide)
    · have hle : Real.exp (-((243 : ℤ) : ℝ) / 1) ≤ 1 :=
        Real.exp_le_one_iff.2 (by norm_num)
      linarith
  obtain ⟨hgrid, -, hcost⟩ := h.2 hcond
  exact ⟨hgrid, hcost⟩
